import Mathlib

/-!
Shallow embedding of the sampler-averager loop of `src/main.rs` (voice-tool).

The program keeps a `window : [u16; 105]`, a `windowlen = 100` and a write
cursor `i`.  Each loop iteration polls the ADC FIFO length, reads that many
samples into the window (incrementing the cursor and resetting it to 0 once it
exceeds `windowlen`), sums the first `windowlen` entries, divides by
`windowlen`, and emits `average * (25000/4096)` as the PWM duty.

Machine integers are modelled as `Nat`; the `u16` multiplication that produces
the duty carries an explicit `% 65536`; the fallible operations (indexing,
division, `try_into().unwrap()`, overflow) have `Option`-valued checked
variants used for the safety claims.
-/

namespace VoiceTool

/-- The mutable state of the loop: the sample window (`[u16; 105]` in the
source, zero-initialised), the active window length (`windowlen`, set to 100),
and the write cursor `i`. -/
structure State where
  window : List Nat
  windowlen : Nat
  i : Nat
deriving DecidableEq

/-- One sample consumed from the FIFO: `window[i] = adc_fifo.read(); i += 1;
if i > windowlen { i = 0 }` (src/main.rs lines 119-123). -/
def step (s : State) (sample : Nat) : State :=
  { window := s.window.set s.i sample
    windowlen := s.windowlen
    i := if s.i + 1 > s.windowlen then 0 else s.i + 1 }

/-- The drain phase of one loop iteration (src/main.rs lines 116-125):
`sample_len = adc_fifo.len(); if adc_fifo.len() > 0 { for n in 0..sample_len
{ ... } }`.  The pending FIFO content is the list `pending`, consumed oldest
first. -/
def drain (s : State) (pending : List Nat) : State :=
  if pending.length > 0 then pending.foldl step s else s

/-- The summation loop (src/main.rs lines 127-130): `sum` over
`&window[0..windowlen]`, accumulated left to right. -/
def sumActive (s : State) : Nat :=
  (s.window.take s.windowlen).foldl (fun a b => a + b) 0

/-- `(sum / windowlen)` (src/main.rs line 131), integer division. -/
def average (s : State) : Nat :=
  sumActive s / s.windowlen

/-- The average phase as an operation on the state: it returns the computed
value and leaves the state untouched (the source reads the window through a
shared borrow and mutates nothing). -/
def averageOp (s : State) : Nat × State :=
  (average s, s)

/-- The constant `25000/4096` of src/main.rs line 133 (integer division). -/
def scale_factor : Nat :=
  25000 / 4096

/-- `duty = average * (25000/4096)` (src/main.rs line 133); the multiplication
is on `u16`, hence the explicit reduction modulo `2^16`. -/
def duty (average : Nat) : Nat :=
  (average * scale_factor) % 65536

/-- One full loop-body iteration: drain, average, scale; returns the new state
and the duty value passed to `channel.set_duty` (src/main.rs lines 114-136). -/
def loopBody (s : State) (pending : List Nat) : State × Nat :=
  let s2 := drain s pending
  (s2, duty (average s2))

/-- The state right after initialisation (src/main.rs lines 109-112):
zeroed window of capacity 105, `windowlen = 100`, cursor 0. -/
def initState : State :=
  { window := List.replicate 105 0, windowlen := 100, i := 0 }

/-- Checked variant of `step`: fails if the write index is out of bounds of
the 105-element buffer (a Rust panic on `window[i] = ...`). -/
def stepChecked (s : State) (sample : Nat) : Option State :=
  if s.i < s.window.length then some (step s sample) else none

/-- Checked variant of `drain`. -/
def drainChecked (s : State) (pending : List Nat) : Option State :=
  if pending.length > 0 then pending.foldlM stepChecked s else some s

/-- Checked variant of the average phase: the `usize` accumulator must not
overflow (32-bit target), the divisor must be non-zero, and the quotient must
fit in `u16` for `try_into().unwrap()` to succeed. -/
def averageChecked (s : State) : Option Nat :=
  if sumActive s < 4294967296 then
    if s.windowlen ≠ 0 then
      if average s < 65536 then some (average s) else none
    else none
  else none

/-- Checked variant of the whole loop body: additionally the `u16`
multiplication `average * (25000/4096)` must not overflow. -/
def loopBodyChecked (s : State) (pending : List Nat) : Option (State × Nat) := do
  let s2 ← drainChecked s pending
  let avg ← averageChecked s2
  if avg * scale_factor < 65536 then
    return (s2, avg * scale_factor)
  else none

/-- The states reachable by the loop from the initial state.  Each iteration
consumes one batch of pending samples; the RP2040 ADC FIFO is 4 entries deep,
and in 12-bit mode (the configured mode) every sample is at most 4095. -/
inductive Reachable : State → Prop where
  | init : Reachable initState
  | drain_step (s : State) (pending : List Nat) (hs : Reachable s)
      (hlen : pending.length ≤ 4) (hval : ∀ x ∈ pending, x ≤ 4095) :
      Reachable (drain s pending)

/-- The state invariant maintained by the loop. -/
def Valid (s : State) : Prop :=
  s.windowlen = 100 ∧ s.window.length = 105 ∧ s.i ≤ 100 ∧ ∀ x ∈ s.window, x ≤ 4095

/-- A sequence of drain batches, executed in order. -/
def drainSeq (s : State) (batches : List (List Nat)) : State :=
  batches.foldl drain s

theorem step_valid {s : State} {x : Nat} (hs : Valid s) (hx : x ≤ 4095) :
    Valid (step s x) := by
  obtain ⟨h1, h2, h3, h4⟩ := hs
  refine ⟨h1, ?_, ?_, ?_⟩
  · simpa [step] using h2
  · simp only [step, h1]
    split <;> omega
  · intro y hy
    rcases List.mem_or_eq_of_mem_set hy with h | h
    · exact h4 y h
    · omega

theorem foldl_step_valid {p : List Nat} {s : State} (hs : Valid s)
    (hp : ∀ x ∈ p, x ≤ 4095) : Valid (p.foldl step s) := by
  induction p generalizing s with
  | nil => exact hs
  | cons x p ih =>
    simp only [List.foldl_cons]
    refine ih (step_valid hs ?_) ?_
    · exact hp x (List.mem_cons_self x p)
    · intro y hy
      exact hp y (List.mem_cons_of_mem x hy)

theorem drain_valid {s : State} {p : List Nat} (hs : Valid s)
    (hp : ∀ x ∈ p, x ≤ 4095) : Valid (drain s p) := by
  unfold drain
  split
  · exact foldl_step_valid hs hp
  · exact hs

theorem initState_valid : Valid initState := by
  refine ⟨rfl, by simp [initState], by simp [initState], ?_⟩
  intro x hx
  simp only [initState] at hx
  rw [List.eq_of_mem_replicate hx]
  omega

theorem reachable_valid {s : State} (h : Reachable s) : Valid s := by
  induction h with
  | init => exact initState_valid
  | drain_step s pending hs hlen hval ih => exact drain_valid ih hval

theorem step_windowlen (s : State) (x : Nat) :
    (step s x).windowlen = s.windowlen := rfl

theorem foldl_step_windowlen (p : List Nat) (s : State) :
    (p.foldl step s).windowlen = s.windowlen := by
  induction p generalizing s with
  | nil => rfl
  | cons x p ih => simpa [List.foldl_cons] using ih (step s x)

theorem drain_windowlen (s : State) (p : List Nat) :
    (drain s p).windowlen = s.windowlen := by
  unfold drain
  split
  · exact foldl_step_windowlen p s
  · rfl

theorem step_i_mod {s : State} (x : Nat) (h : s.i ≤ s.windowlen) :
    (step s x).i = (s.i + 1) % (s.windowlen + 1) := by
  simp only [step]
  split
  · have h2 : s.i = s.windowlen := by omega
    rw [h2, Nat.mod_self]
  · exact (Nat.mod_eq_of_lt (by omega)).symm

theorem foldl_step_i {p : List Nat} {s : State} (hw : s.windowlen = 100)
    (hi : s.i ≤ 100) : (p.foldl step s).i = (s.i + p.length) % 101 := by
  induction p generalizing s with
  | nil => simp; omega
  | cons x p ih =>
    simp only [List.foldl_cons, List.length_cons]
    have hsw : (step s x).windowlen = 100 := by rw [step_windowlen, hw]
    have hsi : (step s x).i = (s.i + 1) % 101 := by
      rw [step_i_mod x (by omega), hw]
    have := ih hsw (by rw [hsi]; omega)
    rw [this, hsi]
    omega

theorem foldl_step_frame {p : List Nat} {s : State} {m : Nat}
    (hw : s.windowlen = 100) (hi : s.i ≤ 100)
    (hm : ∀ k < p.length, (s.i + k) % 101 ≠ m) :
    (p.foldl step s).window[m]? = s.window[m]? := by
  induction p generalizing s with
  | nil => rfl
  | cons x p ih =>
    simp only [List.foldl_cons]
    have hsw : (step s x).windowlen = 100 := by rw [step_windowlen, hw]
    have hsi : (step s x).i = (s.i + 1) % 101 := by
      rw [step_i_mod x (by omega), hw]
    have hfr : ∀ k < p.length, ((step s x).i + k) % 101 ≠ m := by
      intro k hk
      rw [hsi]
      have := hm (k + 1) (by simpa using Nat.succ_lt_succ hk)
      omega
    rw [ih hsw (by rw [hsi]; omega) hfr]
    have hne : s.i ≠ m := by
      have := hm 0 (by simp)
      omega
    simp only [step]
    exact List.getElem?_set_ne hne

theorem foldl_step_getElem {p : List Nat} {s : State} {k : Nat}
    (hw : s.windowlen = 100) (hl : s.window.length = 105) (hi : s.i ≤ 100)
    (hp : p.length ≤ 101) (hk : k < p.length) :
    (p.foldl step s).window[(s.i + k) % 101]? = p[k]? := by
  induction p generalizing s k with
  | nil => simp at hk
  | cons x p ih =>
    simp only [List.foldl_cons]
    have hsw : (step s x).windowlen = 100 := by rw [step_windowlen, hw]
    have hsl : (step s x).window.length = 105 := by
      simp [step, hl]
    have hsi : (step s x).i = (s.i + 1) % 101 := by
      rw [step_i_mod x (by omega), hw]
    match k with
    | 0 =>
      have hpos : (s.i + 0) % 101 = s.i := by omega
      rw [hpos]
      have hfr : ∀ j < p.length, ((step s x).i + j) % 101 ≠ s.i := by
        intro j hj
        rw [hsi]
        simp only [List.length_cons] at hp
        omega
      rw [foldl_step_frame hsw (by rw [hsi]; omega) hfr]
      simp only [step, List.getElem?_cons_zero]
      exact List.getElem?_set_self (by omega)
    | k + 1 =>
      have hk2 : k < p.length := by simpa using Nat.lt_of_succ_lt_succ hk
      have hp2 : p.length ≤ 101 := by
        simp only [List.length_cons] at hp
        omega
      have := ih hsw hsl (by rw [hsi]; omega) hp2 hk2
      rw [hsi] at this
      have hpos : ((s.i + 1) % 101 + k) % 101 = (s.i + (k + 1)) % 101 := by omega
      rw [hpos] at this
      rw [this]
      simp

theorem reachable_drainSeq {s : State} {batches : List (List Nat)}
    (hs : Reachable s)
    (hb : ∀ b ∈ batches, b.length ≤ 4 ∧ ∀ x ∈ b, x ≤ 4095) :
    Reachable (drainSeq s batches) := by
  induction batches generalizing s with
  | nil => exact hs
  | cons b bs ih =>
    simp only [drainSeq, List.foldl_cons]
    have hb1 := hb b (List.mem_cons_self b bs)
    exact ih (Reachable.drain_step s b hs hb1.1 hb1.2)
      (fun c hc => hb c (List.mem_cons_of_mem b hc))

theorem foldl_add_eq_sum (l : List Nat) (a : Nat) :
    l.foldl (fun x y => x + y) a = a + l.sum := by
  induction l generalizing a with
  | nil => simp
  | cons x l ih =>
    simp only [List.foldl_cons, List.sum_cons, ih]
    omega

theorem sumActive_eq_sum (s : State) :
    sumActive s = (s.window.take s.windowlen).sum := by
  unfold sumActive
  rw [foldl_add_eq_sum]
  simp

theorem sum_le_of_forall_le {l : List Nat} {n : Nat} (h : ∀ x ∈ l, x ≤ n) :
    l.sum ≤ l.length * n := by
  induction l with
  | nil => simp
  | cons x l ih =>
    simp only [List.sum_cons, List.length_cons]
    have h1 := h x (List.mem_cons_self x l)
    have h2 := ih (fun y hy => h y (List.mem_cons_of_mem x hy))
    calc x + l.sum ≤ n + l.length * n := Nat.add_le_add h1 h2
    _ = (l.length + 1) * n := by ring

theorem sumActive_le {s : State} (hw : s.windowlen = 100)
    (hv : ∀ x ∈ s.window, x ≤ 4095) : sumActive s ≤ 409500 := by
  have h1 : ∀ x ∈ s.window.take s.windowlen, x ≤ 4095 :=
    fun x hx => hv x (List.take_subset s.windowlen s.window hx)
  have h2 := sum_le_of_forall_le h1
  have h3 : (s.window.take s.windowlen).length ≤ 100 := by
    rw [hw, List.length_take]
    omega
  rw [sumActive_eq_sum]
  calc (s.window.take s.windowlen).sum
      ≤ (s.window.take s.windowlen).length * 4095 := h2
    _ ≤ 100 * 4095 := Nat.mul_le_mul_right 4095 h3
    _ = 409500 := rfl

theorem average_le {s : State} (hw : s.windowlen = 100)
    (hv : ∀ x ∈ s.window, x ≤ 4095) : average s ≤ 4095 := by
  have h1 := sumActive_le hw hv
  unfold average
  rw [hw]
  calc sumActive s / 100 ≤ 409500 / 100 := Nat.div_le_div_right h1
    _ = 4095 := rfl

theorem stepChecked_eq {s : State} (x : Nat) (h : s.i < s.window.length) :
    stepChecked s x = some (step s x) := by
  simp [stepChecked, h]

theorem foldlM_stepChecked {p : List Nat} {s : State}
    (hw : s.windowlen = 100) (hl : s.window.length = 105) (hi : s.i ≤ 100) :
    p.foldlM stepChecked s = some (p.foldl step s) := by
  induction p generalizing s with
  | nil => rfl
  | cons x p ih =>
    rw [List.foldlM_cons, stepChecked_eq x (by omega)]
    simp only [Option.bind_eq_bind, Option.some_bind]
    exact ih (by rw [step_windowlen, hw]) (by simp [step, hl])
      (by rw [step_i_mod x (by omega), hw]; omega)

theorem drainChecked_eq {s : State} {p : List Nat}
    (hw : s.windowlen = 100) (hl : s.window.length = 105) (hi : s.i ≤ 100) :
    drainChecked s p = some (drain s p) := by
  unfold drainChecked drain
  split
  · exact foldlM_stepChecked hw hl hi
  · rfl

theorem averageChecked_eq {s : State} (hw : s.windowlen = 100)
    (hv : ∀ x ∈ s.window, x ≤ 4095) :
    averageChecked s = some (average s) := by
  have h1 := sumActive_le hw hv
  have h2 := average_le hw hv
  unfold averageChecked
  rw [if_pos (by omega), if_pos (by omega), if_pos (by omega)]

/-- A batch sequence that advances the cursor from 0 to 98 writing only
zeroes (24 full FIFO drains of 4 samples, then one drain of 2). -/
def batchesTo98 : List (List Nat) :=
  List.replicate 24 (List.replicate 4 0) ++ [[0, 0]]

/-- The reachable state with cursor 98 and an all-zero window. -/
def s98 : State :=
  drainSeq initState batchesTo98

/-- A batch sequence that advances the cursor from 0 to 100 writing only
zeroes (25 full FIFO drains of 4 samples). -/
def batchesTo100 : List (List Nat) :=
  List.replicate 25 (List.replicate 4 0)

/-- The reachable state with cursor 100 (= `windowlen`) and an all-zero
window. -/
def s100 : State :=
  drainSeq initState batchesTo100

theorem s98_reachable : Reachable s98 :=
  reachable_drainSeq Reachable.init (by decide)

theorem s100_reachable : Reachable s100 :=
  reachable_drainSeq Reachable.init (by decide)

set_option maxRecDepth 100000 in
theorem s98_eq : s98 = { window := List.replicate 105 0, windowlen := 100, i := 98 } := by
  decide

set_option maxRecDepth 100000 in
theorem s100_eq : s100 = { window := List.replicate 105 0, windowlen := 100, i := 100 } := by
  decide

theorem take_set_self (l : List Nat) (n : Nat) (v : Nat) :
    (l.set n v).take n = l.take n :=
  List.ext_getElem? fun m => by
    rw [List.getElem?_take, List.getElem?_take]
    split
    · rw [List.getElem?_set_ne (by omega)]
    · rfl

/-- Claim C1: whenever the polled pending count is positive, one loop
iteration reads exactly that many samples, one at a time, in FIFO (oldest
first) order, storing each at `window[cursor]`, incrementing the cursor and
resetting it to 0 once it exceeds the active window length; with a pending
count of 0 the state is unchanged. -/
theorem C1_drain_behaviour (s : State) (pending : List Nat) :
    (pending.length = 0 → drain s pending = s) ∧
    (pending.length > 0 →
      drain s pending = pending.foldl (fun st x =>
        { window := st.window.set st.i x
          windowlen := st.windowlen
          i := if st.i + 1 > st.windowlen then 0 else st.i + 1 }) s) := by
  constructor
  · intro h
    unfold drain
    rw [if_neg (by omega)]
  · intro h
    unfold drain
    rw [if_pos h]
    rfl

theorem C1_drain_behaviour_witness :
    drain initState [] = initState ∧
    drain initState [5, 6] = [5, 6].foldl (fun st x =>
      { window := st.window.set st.i x
        windowlen := st.windowlen
        i := if st.i + 1 > st.windowlen then 0 else st.i + 1 }) initState :=
  ⟨(C1_drain_behaviour initState []).1 rfl,
   (C1_drain_behaviour initState [5, 6]).2 (by decide)⟩

/-- Claim C3: in every reachable state the cursor lies in `[0, windowlen]`
(`windowlen = 100`); the cursor advances by one per consumed sample and wraps
to 0 exactly when the incremented value exceeds `windowlen`; the cursor can
rest at index `windowlen` (a reachable state attains it), in which case the
next consumed sample is written at index `windowlen`, one slot past the
active range; and draining exactly 100 samples from cursor 0 leaves the
cursor at 0 or at 100 (in fact at 100). -/
theorem C3_cursor_invariant :
    (∀ s, Reachable s → s.i ≤ 100) ∧
    (∀ s x, (step s x).i = if s.i + 1 > s.windowlen then 0 else s.i + 1) ∧
    (∀ s x, (step s x).i = 0 ↔ s.i + 1 > s.windowlen) ∧
    (∃ s, Reachable s ∧ s.windowlen = 100 ∧ s.i = s.windowlen) ∧
    (∀ s x, s.i = s.windowlen →
      (step s x).window = s.window.set s.windowlen x ∧ (step s x).i = 0) ∧
    (∀ s p, s.i = 0 → s.windowlen = 100 → p.length = 100 →
      (drain s p).i = 0 ∨ (drain s p).i = 100) := by
  refine ⟨?_, ?_, ?_, ?_, ?_, ?_⟩
  · intro s hs
    exact (reachable_valid hs).2.2.1
  · intro s x
    rfl
  · intro s x
    constructor
    · intro h
      by_contra hc
      simp only [step, if_neg hc] at h
      omega
    · intro h
      simp only [step, if_pos h]
  · refine ⟨s100, s100_reachable, ?_, ?_⟩ <;> rw [s100_eq]
  · intro s x h
    constructor
    · simp only [step, h]
    · simp only [step]
      rw [if_pos (by omega)]
  · intro s p h0 hw hl
    right
    unfold drain
    rw [if_pos (by omega), foldl_step_i hw (by omega), h0, hl]

theorem C3_cursor_invariant_witness :
    initState.i ≤ 100 ∧
    ((step s100 7).window = s100.window.set s100.windowlen 7 ∧ (step s100 7).i = 0) ∧
    ((drain initState (List.replicate 100 5)).i = 0 ∨
      (drain initState (List.replicate 100 5)).i = 100) :=
  ⟨C3_cursor_invariant.1 initState Reachable.init,
   C3_cursor_invariant.2.2.2.2.1 s100 7 (by rw [s100_eq]),
   C3_cursor_invariant.2.2.2.2.2 initState (List.replicate 100 5) rfl rfl (by simp)⟩

/-- Claim C5: for every window state (with the active length 100 of the
program), Average returns the floor of the sum of the first 100 window
entries divided by 100, and the accumulator does not overflow the 32-bit
`usize` for `u16` entries; in particular a window summing to 105 averages
to 1 (see the witness). -/
theorem C5_average_floor_sum (s : State) (hw : s.windowlen = 100) :
    average s = (s.window.take 100).sum / 100 ∧
    ((∀ x ∈ s.window, x < 65536) → sumActive s < 4294967296) := by
  constructor
  · unfold average
    rw [sumActive_eq_sum, hw]
  · intro hv
    have h1 : ∀ x ∈ s.window.take s.windowlen, x ≤ 65535 := fun x hx => by
      have := hv x (List.take_subset s.windowlen s.window hx)
      omega
    have h2 := sum_le_of_forall_le h1
    have h3 : (s.window.take s.windowlen).length ≤ 100 := by
      rw [hw, List.length_take]
      omega
    have h4 : (s.window.take s.windowlen).sum ≤ 6553500 := by
      calc (s.window.take s.windowlen).sum
          ≤ (s.window.take s.windowlen).length * 65535 := h2
        _ ≤ 100 * 65535 := Nat.mul_le_mul_right 65535 h3
        _ = 6553500 := rfl
    rw [sumActive_eq_sum]
    omega

/-- Window state whose active slice sums to 105: first entry 105, rest 0. -/
def w105 : State :=
  { window := 105 :: List.replicate 104 0, windowlen := 100, i := 0 }

set_option maxRecDepth 10000 in
theorem C5_average_floor_sum_witness :
    average w105 = (w105.window.take 100).sum / 100 ∧ average w105 = 1 :=
  ⟨(C5_average_floor_sum w105 rfl).1, by decide⟩

/-- Claim C6: the emitted duty is the average times the fixed scale factor
`25000 / 4096 = 6` (integer arithmetic, no clamping); for any average in the
12-bit sample range the multiplication does not wrap, and at average 4095 the
duty is 24570 (see the witness). -/
theorem C6_duty_scale (a : Nat) (h : a ≤ 4095) :
    scale_factor = 6 ∧ duty a = a * 6 := by
  refine ⟨rfl, ?_⟩
  unfold duty scale_factor
  omega

theorem C6_duty_scale_witness :
    (scale_factor = 6 ∧ duty 4095 = 4095 * 6) ∧ duty 4095 = 24570 :=
  ⟨C6_duty_scale 4095 (by decide), by decide⟩

/-- Claim C8: Average is idempotent — computing it twice with no intervening
Drain yields the same value, and the Average operation leaves the state
unchanged (it reads the window through a shared borrow). -/
theorem C8_average_idempotent (s : State) :
    (averageOp (averageOp s).2).1 = (averageOp s).1 ∧ (averageOp s).2 = s :=
  ⟨rfl, rfl⟩

/-- Claim C9: `windowlen` is set to 100 at initialisation and no operation of
the loop ever modifies it; it equals 100 in every reachable state. -/
theorem C9_windowlen_constant :
    initState.windowlen = 100 ∧
    (∀ s, Reachable s → s.windowlen = 100) ∧
    (∀ s x, (step s x).windowlen = s.windowlen) ∧
    (∀ s p, (drain s p).windowlen = s.windowlen) ∧
    (∀ s, (averageOp s).2.windowlen = s.windowlen) :=
  ⟨rfl, fun _ hs => (reachable_valid hs).1, fun _ _ => rfl,
   fun s p => drain_windowlen s p, fun _ => rfl⟩

theorem C9_windowlen_constant_witness : s100.windowlen = 100 :=
  C9_windowlen_constant.2.1 s100 s100_reachable

/-- Claim C10: the loop body is deterministic — two runs from equal states
consuming equal pending sequences produce identical window contents, cursor
position and emitted duty. -/
theorem C10_loop_deterministic (s1 s2 : State) (p1 p2 : List Nat)
    (hs : s1 = s2) (hp : p1 = p2) : loopBody s1 p1 = loopBody s2 p2 := by
  rw [hs, hp]

theorem C10_loop_deterministic_witness :
    loopBody initState [3, 4] = loopBody initState [3, 4] :=
  C10_loop_deterministic initState initState [3, 4] [3, 4] rfl rfl

set_option maxRecDepth 100000 in
/-- Claim C2, counterexample: from the reachable all-zero state with cursor
98, draining the three pending samples `[1, 2, 3]` writes the most recent
sample 3 at index 100, outside the active slice `window[0..100]` — the active
slice does not contain the 3 most recently produced samples. -/
theorem C2_counterexample :
    Reachable s98 ∧ s98.i = 98 ∧
    (drain s98 [1, 2, 3]).window[100]? = some 3 ∧
    3 ∉ (drain s98 [1, 2, 3]).window.take 100 :=
  ⟨s98_reachable, by rw [s98_eq], by rw [s98_eq]; decide, by rw [s98_eq]; decide⟩

/-- Claim C2, amended: from every reachable state, draining a pending batch
of at most 4 samples stores the k-th sample (production order) at index
`(cursor + k) % 101`; every sample whose index is below 100 lies in the
active slice at that cursor-relative position, while a sample whose index is
exactly 100 lands one slot past the active slice. -/
theorem C2_drain_positions (s : State) (p : List Nat) (hs : Reachable s)
    (hp : p.length ≤ 4) (k : Nat) (hk : k < p.length) :
    (drain s p).window[(s.i + k) % 101]? = p[k]? ∧
    ((s.i + k) % 101 < 100 →
      ((drain s p).window.take 100)[(s.i + k) % 101]? = p[k]?) := by
  obtain ⟨hw, hl, hi, hv⟩ := reachable_valid hs
  have hd : drain s p = p.foldl step s := by
    unfold drain
    rw [if_pos (by omega)]
  have h1 : (p.foldl step s).window[(s.i + k) % 101]? = p[k]? :=
    foldl_step_getElem hw hl hi (by omega) hk
  refine ⟨by rw [hd]; exact h1, ?_⟩
  intro hlt
  rw [hd, List.getElem?_take_of_lt hlt]
  exact h1

theorem C2_drain_positions_witness :
    (drain s98 [1, 2]).window[(s98.i + 1) % 101]? = ([1, 2] : List Nat)[1]? ∧
    ((s98.i + 1) % 101 < 100 →
      ((drain s98 [1, 2]).window.take 100)[(s98.i + 1) % 101]? = ([1, 2] : List Nat)[1]?) :=
  C2_drain_positions s98 [1, 2] s98_reachable (by decide) 1 (by decide)

/-- Every reachable state agrees with the initial (zeroed) window on all
indices strictly beyond 100: those slots are never written. -/
theorem reachable_tail_untouched {s : State} (hs : Reachable s) :
    ∀ j, 100 < j → s.window[j]? = initState.window[j]? := by
  induction hs with
  | init =>
    intro j hj
    rfl
  | drain_step s p hsr hlen hval ih =>
    intro j hj
    obtain ⟨hw, hl, hi, hv⟩ := reachable_valid hsr
    unfold drain
    split
    · rw [foldl_step_frame hw hi (fun k hk => by omega)]
      exact ih j hj
    · exact ih j hj

set_option maxRecDepth 100000 in
/-- Claim C4, counterexample: index 100 of the window is written — from the
reachable all-zero state with cursor 100, draining one sample 7 stores 7 at
index 100, which differs from its initial value 0. -/
theorem C4_counterexample :
    Reachable (drain s100 [7]) ∧
    (drain s100 [7]).window[100]? = some 7 ∧
    initState.window[100]? = some 0 :=
  ⟨Reachable.drain_step s100 [7] s100_reachable (by decide) (by decide),
   by rw [s100_eq]; decide, by decide⟩

/-- Claim C4, amended: the window entries at indices strictly beyond 100
(101..104) are never written (they keep their initial value 0 in every
reachable state) and never read; entry 100 is written (when the cursor rests
at 100) but never read: the average depends only on the first `windowlen`
entries, so rewriting entry 100 leaves it unchanged. -/
theorem C4_dead_space (s : State) (hs : Reachable s) :
    (∀ j, 100 < j → j < 105 → s.window[j]? = some 0) ∧
    (∀ t : State, t.windowlen = s.windowlen →
      t.window.take t.windowlen = s.window.take s.windowlen →
      average t = average s) ∧
    (∀ v, average { s with window := s.window.set 100 v } = average s) := by
  obtain ⟨hw, hl, hi, hv⟩ := reachable_valid hs
  refine ⟨?_, ?_, ?_⟩
  · intro j hj hj2
    rw [reachable_tail_untouched hs j hj]
    show (List.replicate 105 0)[j]? = some 0
    exact List.getElem?_replicate_of_lt hj2
  · intro t h1 h2
    unfold average
    rw [sumActive_eq_sum, sumActive_eq_sum, h2, h1]
  · intro v
    unfold average
    rw [sumActive_eq_sum, sumActive_eq_sum]
    show ((s.window.set 100 v).take s.windowlen).sum / s.windowlen = _
    rw [hw, take_set_self]

theorem C4_dead_space_witness :
    s100.window[101]? = some 0 ∧
    average { s100 with window := s100.window.set 100 77 } = average s100 :=
  ⟨(C4_dead_space s100 s100_reachable).1 101 (by decide) (by decide),
   (C4_dead_space s100 s100_reachable).2.2 77⟩

/-- Claim C7: with every FIFO sample at most 4095 (12-bit mode), one
loop-body iteration from a reachable state never fails: all window indices
are within the capacity-105 buffer, the division is by the non-zero
`windowlen`, the conversion of the average to `u16` succeeds, and the duty
multiplication does not overflow `u16` — the checked loop body returns
exactly the unchecked result. -/
theorem C7_no_error_paths (s : State) (p : List Nat) (hs : Reachable s)
    (hp : ∀ x ∈ p, x ≤ 4095) :
    loopBodyChecked s p = some (loopBody s p) := by
  obtain ⟨hw, hl, hi, hv⟩ := reachable_valid hs
  have hd : drainChecked s p = some (drain s p) := drainChecked_eq hw hl hi
  have hvd : Valid (drain s p) := drain_valid ⟨hw, hl, hi, hv⟩ hp
  have ha : averageChecked (drain s p) = some (average (drain s p)) :=
    averageChecked_eq hvd.1 hvd.2.2.2
  have hle : average (drain s p) ≤ 4095 := average_le hvd.1 hvd.2.2.2
  have hlt : average (drain s p) * scale_factor < 65536 := by
    unfold scale_factor
    omega
  unfold loopBodyChecked loopBody
  rw [hd]
  simp only [Option.bind_eq_bind, Option.some_bind, ha, if_pos hlt]
  unfold duty
  rw [Nat.mod_eq_of_lt hlt]
  rfl

theorem C7_no_error_paths_witness :
    loopBodyChecked initState [4095, 1, 2] = some (loopBody initState [4095, 1, 2]) :=
  C7_no_error_paths initState [4095, 1, 2] Reachable.init (by decide)

end VoiceTool
